import Mathlib

/-!
Verification of the function-instrumentation toolkit in `deco.py`
(r2d2-lex/decorators): a Memoizer (`memo`), a CallCounter (`countcalls`),
an AritySpreader (`n_ary`), a CallTracer (`trace`), and the `disable`
placeholder.  Each wrapper is shallowly embedded as a Lean function; the
mutable closure state of the Python wrappers (cache lists, call counters,
nesting depth) is made explicit by state passing.
-/

namespace Deco

/-- A call's arguments: the positional tuple `args` and the keyword dict
`kwargs` (modelled as an association list compared by value equality,
matching `val[ARGS] == args and val[KWARGS] == kwargs` in `memo`). -/
structure CallArgs where
  args : List Int
  kwargs : List (String × Int)
deriving DecidableEq

/-- A cache record `[args, kwargs, result]` as appended by `memo`:
the key (positional + keyword arguments) together with the stored result. -/
abbrev Record := CallArgs × Int

/-- A stateful callable: the shallow embedding of a (possibly wrapped)
Python function whose closure state has type `σ`.  Calling it takes the
current state and the call arguments to the returned value and new state. -/
def SFun (σ : Type) : Type := σ → CallArgs → Int × σ

/-- A plain (stateless) target function, lifted into `SFun`. -/
def pureF (f : CallArgs → Int) : SFun Unit := fun s a => (f a, s)

/-- Invocation-counting instrumentation of a target function: the state
counts how many times the underlying body has actually been entered.
(A modelling device used to express "invokes `f` at most once".) -/
def instr (f : CallArgs → Int) : SFun Nat := fun c a => (f a, c + 1)

/-- The cache lookup of `memo`: a linear scan over the record list for the
first record whose stored `(args, kwargs)` equal the call's, returning its
stored result (`for val in values: if val[ARGS] == args and
val[KWARGS] == kwargs: return val[RESULT]`).  On an empty list the scan
finds nothing, which also covers the `if values:` guard. -/
def memoLookup (cache : List Record) (a : CallArgs) : Option Int :=
  (cache.find? (fun v => decide (v.1 = a))).map (fun v => v.2)

/-- The `memo` wrapper around a target `g`: on a hit return the stored
result without invoking `g`; on a miss invoke `g(*args, **kwargs)` (the
three-way `if kwargs / elif args / else` dispatch in the source all invoke
the same target), append `[args, kwargs, result]` to the cache, and return
the result.  The wrapper state pairs the target's own state with the
closure's `functions` record list for this function's name. -/
def memoW {σ : Type} (g : SFun σ) : SFun (σ × List Record) := fun st a =>
  match memoLookup st.2 a with
  | some r => (r, st)
  | none =>
    let rs := g st.1 a
    (rs.1, (rs.2, st.2 ++ [(a, rs.1)]))

/-- The `countcalls` wrapper around a target `g`: increment the counter
stored for the function's name (`self.functions[self.func.__name__] += 1`),
then invoke the target with the original arguments and return its result
unchanged.  The per-instance `defaultdict` holds a single key (the wrapped
function's name), so its state is one natural number. -/
def ccW {σ : Type} (g : SFun σ) : SFun (σ × Nat) := fun st a =>
  let counted := st.2 + 1
  let rs := g st.1 a
  (rs.1, (rs.2, counted))

/-- The `calls` read accessor of `countcalls`: the stored count. -/
def calls {σ : Type} (st : σ × Nat) : Nat := st.2

/-- Run a stateful callable over a sequence of calls, threading the state. -/
def runSeq {σ : Type} (g : SFun σ) : σ → List CallArgs → σ
  | s, [] => s
  | s, a :: rest => runSeq g ((g s a).2) rest

/-- `memo` applied to a plain function `f`, with `f`'s body invocations
counted: state is (invocation count, cache list), initially `(0, [])`. -/
def memoF (f : CallArgs → Int) : SFun (Nat × List Record) := memoW (instr f)

/-- `countcalls(memo(f))`: the counter is the outer layer. -/
def outerWrap (f : CallArgs → Int) : SFun ((Unit × List Record) × Nat) :=
  ccW (memoW (pureF f))

/-- `memo(countcalls(f))`: the counter is the inner layer, behind the cache. -/
def innerWrap (f : CallArgs → Int) : SFun ((Unit × Nat) × List Record) :=
  memoW (ccW (pureF f))

/-- Final `calls` count after `n` identical calls through
`countcalls(memo(f))`, starting from a fresh wrapper. -/
def outerCount (f : CallArgs → Int) (a : CallArgs) (n : Nat) : Nat :=
  (runSeq (outerWrap f) (((), []), 0) (List.replicate n a)).2

/-- Final `calls` count after `n` identical calls through
`memo(countcalls(f))`, starting from a fresh wrapper. -/
def innerCount (f : CallArgs → Int) (a : CallArgs) (n : Nat) : Nat :=
  (runSeq (innerWrap f) (((), 0), []) (List.replicate n a)).1.2

/-- A sample target for witnesses. -/
def constZero : CallArgs → Int := fun _ => 0

/-- Sample call arguments for witnesses. -/
def sampleArgs : CallArgs := ⟨[1], []⟩

/-! ### The `n_ary` AritySpreader

`n_ary`'s wrapper takes positional arguments only.  It reads the target's
declared positional arity once via `inspect.signature`; we model a Python
function as its declared arity plus an implementation on argument lists.
Calling with the wrong number of arguments is a `TypeError` and does not
enter the body; a raised error is modelled as `none`.  Alongside the
Option-valued result we count how many times the target body is entered. -/

/-- A Python function: its declared positional parameter count (what
`len(inspect.signature(func).parameters)` reports) and its body. -/
structure PyFunc where
  arity : Nat
  impl : List Int → Int

/-- Calling a `PyFunc` with a positional argument list: enters the body
(counting one invocation) iff the argument count matches the declared
arity; otherwise a `TypeError` (`none`, zero invocations). -/
def callC (f : PyFunc) (xs : List Int) : Option Int × Nat :=
  if xs.length = f.arity then (some (f.impl xs), 1) else (none, 0)

/-- The reduction loop of `n_ary`:
`for i in range(window - P, 0, -1): result = func(*args[i-1:i], result)`.
The counter argument is the number of remaining iterations `i`; iteration
`i = k + 1` uses the single slice element `args[k]` (Python's `args[i-1]`,
always in range since `i - 1 < len(args)` throughout the loop, so `getD`
never falls back to its default).  Invocations are accumulated, and a
raised error (`none`) aborts the loop as an exception would. -/
def n_aryLoop (f : PyFunc) (args : List Int) : Nat → Int → Option Int × Nat
  | 0, r => (some r, 0)
  | k + 1, r =>
    match callC f [args.getD k 0, r] with
    | (none, c) => (none, c)
    | (some r2, c) =>
      let rest := n_aryLoop f args k r2
      (rest.1, c + rest.2)

/-- The `n_ary` wrapper.  With `N` positional arguments and declared arity
`P`: if `N > P`, apply the target to the last `P` arguments
(`args[window - P : window]`) and then run the reduction loop over the
remaining leading arguments; if `N == P`, invoke the target directly; if
`N < P`, return `args[0]` without invoking the target (`head?` is `none`
exactly when `args` is empty, where `args[0]` raises `IndexError`).  The
`result = False` initialisation in the source is dead: every branch
reassigns `result` or raises. -/
def n_ary (f : PyFunc) (args : List Int) : Option Int × Nat :=
  if f.arity < args.length then
    match callC f (args.drop (args.length - f.arity)) with
    | (none, c) => (none, c)
    | (some r0, c) =>
      let rest := n_aryLoop f args (args.length - f.arity) r0
      (rest.1, c + rest.2)
  else if args.length = f.arity then callC f args
  else (args.head?, 0)

/-- A binary Python function built from a Lean binary operation: declared
arity 2, body reading its two positional arguments. -/
def mkBin (g : Int → Int → Int) : PyFunc :=
  ⟨2, fun xs => g (xs.getD 0 0) (xs.getD 1 0)⟩

/-- The right fold described by the docstring and spec,
`f(x, y, z) = f(x, f(y, z))` with a single value left unchanged: the
refinement target `n_ary`'s fold branch is compared against. -/
def rightFold1 (g : Int → Int → Int) : List Int → Int
  | [] => 0
  | [a] => a
  | a :: b :: rest => g a (rightFold1 g (b :: rest))

/-- Integer multiplication, the spec's example binary target. -/
def pyMul : Int → Int → Int := fun x y => x * y

/-! ### The `trace` CallTracer

`trace(line)` wraps a function with entry/exit printing indented by the
closure counter `calls_count`.  The `inspect.stack()[2][3] != 'wrapper'`
check resets the counter exactly when the call does not come from an
active invocation of this same wrapper: for a function wrapped directly
(and only) by `trace`, the top-level call resets the depth to 0, and every
recursive call re-enters through the wrapper (caller two frames up is the
wrapper itself), so it keeps the current depth.  We embed the traced `fib`
(`return 1 if n <= 1 else fib(n-1) + fib(n-2)`) with the depth made an
explicit argument, returning the result together with the printed lines in
order. -/

/-- Python's string repetition `line * calls_count`. -/
def unitRepeat (u : String) (n : Nat) : String :=
  String.join (List.replicate n u)

/-- The entry line `'{} --> {}({})'.format(level_line, func.__name__, str_args)`. -/
def enterLine (u : String) (depth n : Nat) : String :=
  unitRepeat u depth ++ " --> fib(" ++ toString n ++ ")"

/-- The exit line `'{} <-- {}({}) == {}'.format(...)`; `level_line` was
computed before the increment, so entry and exit share one prefix. -/
def exitLine (u : String) (depth n result : Nat) : String :=
  unitRepeat u depth ++ " <-- fib(" ++ toString n ++ ") == " ++ toString result

/-- `fib` wrapped directly (and only) by `trace(u)`, at nesting depth
`depth`: prints the entry line, runs the body at depth + 1 (the counter is
incremented before the recursive calls and decremented after, and nested
calls do not reset it), prints the exit line, and returns the result.  The
`n <= 1` base returns 1; otherwise the body sums `fib(n-1)` and `fib(n-2)`,
whose trace lines appear in that order between this call's entry and exit
lines. -/
def tracedFib (u : String) : Nat → Nat → Nat × List String
  | depth, 0 => (1, [enterLine u depth 0, exitLine u depth 0 1])
  | depth, 1 => (1, [enterLine u depth 1, exitLine u depth 1 1])
  | depth, n + 2 =>
    let r1 := tracedFib u (depth + 1) (n + 1)
    let r2 := tracedFib u (depth + 1) n
    let res := r1.1 + r2.1
    (res, enterLine u depth (n + 2) :: (r1.2 ++ r2.2) ++ [exitLine u depth (n + 2) res])

/-! ### The `disable` placeholder and identity preservation -/

/-- A Python runtime value, as far as `disable` is concerned: `None`, an
integer, or a function object carrying metadata. -/
inductive PyVal where
  | pynone : PyVal
  | pyint (n : Int) : PyVal
  | pyfunc (name : String) (doc : Option String) : PyVal
deriving DecidableEq

/-- `def disable(): return` — a function of zero declared parameters whose
body returns `None`.  Calling a Python function with a different number of
positional arguments than it declares raises `TypeError`; in particular,
using `disable` as a decorator passes it one argument (the function being
decorated). -/
def disable (argv : List PyVal) : Except String PyVal :=
  if argv.length = 0 then Except.ok PyVal.pynone
  else Except.error "TypeError: disable() takes 0 positional arguments"

/-- Function metadata: the `__name__` and `__doc__` attributes copied by
`functools.wraps` / `update_wrapper`. -/
structure Meta where
  name : String
  doc : Option String
deriving DecidableEq

/-- `functools.update_wrapper(wrapper, func)` (and the `@wraps(func)`
decorator): overwrite the wrapper's name and doc with the target's. -/
def update_wrapper (wrapper func : Meta) : Meta :=
  { name := func.name, doc := func.doc }

/-- Metadata of `countcalls(func)`: `update_wrapper(self, func)` in
`__init__` overwrites the instance's class metadata. -/
def countcallsMeta (func : Meta) : Meta :=
  update_wrapper ⟨"countcalls", some "Decorator that counts calls made to the function decorated."⟩ func

/-- Metadata of `memo(func)`: the inner `wrapper` carries `@wraps(func)`. -/
def memoMeta (func : Meta) : Meta := update_wrapper ⟨"wrapper", none⟩ func

/-- Metadata of `n_ary(func)`: the inner `wrapper` carries `@wraps(func)`. -/
def n_aryMeta (func : Meta) : Meta := update_wrapper ⟨"wrapper", none⟩ func

/-- Metadata of `trace(line)(func)`: the inner `wrapper` carries
`@wraps(func)`. -/
def traceMeta (func : Meta) : Meta := update_wrapper ⟨"wrapper", none⟩ func

/-! ## Theorems -/

/-- C1: for every function f and argument pair, calling the fresh memoized
wrapper of f twice with the same arguments returns the stored first result
on the second call, that result equals f applied to the arguments, and the
underlying f is entered at most once in total (the invocation counter after
both calls is at most 1). -/
theorem memo_idem (f : CallArgs → Int) (a : CallArgs) :
    (memoF f ((memoF f ((0 : Nat), ([] : List Record)) a).2) a).1
        = (memoF f ((0 : Nat), ([] : List Record)) a).1
    ∧ (memoF f ((0 : Nat), ([] : List Record)) a).1 = f a
    ∧ ((memoF f ((memoF f ((0 : Nat), ([] : List Record)) a).2) a).2).1 ≤ 1 := by
  simp [memoF, memoW, memoLookup, instr, List.find?]

/-- C3: the tracer with unit "____" applied directly (and only) to fib
prints, for fib(3), exactly the canonical sequence of paired entry and exit
lines, with the empty prefix at depth 0 for the initial call and exit, and
the unit repeated once per recursive descent. -/
theorem trace_fib3 :
    tracedFib "____" 0 3 =
      (3, [" --> fib(3)",
           "____ --> fib(2)",
           "________ --> fib(1)",
           "________ <-- fib(1) == 1",
           "________ --> fib(0)",
           "________ <-- fib(0) == 1",
           "____ <-- fib(2) == 2",
           "____ --> fib(1)",
           "____ <-- fib(1) == 1",
           " <-- fib(3) == 3"]) := by
  decide

/-- C5: for every target f and every sequence of calls through the
countcalls wrapper, the calls accessor afterwards equals the number of
calls made; each single call leaves the count no smaller than before
(non-decreasing, never reset) and returns the target's result on the
original arguments unchanged. -/
theorem countcalls_spec (f : CallArgs → Int) (l : List CallArgs) :
    calls (runSeq (ccW (pureF f)) ((), 0) l) = l.length
    ∧ (∀ (st : Unit × Nat) (a : CallArgs),
        calls st ≤ calls ((ccW (pureF f) st a).2))
    ∧ (∀ (st : Unit × Nat) (a : CallArgs), (ccW (pureF f) st a).1 = f a) := by
  refine ⟨?_, fun st a => by simp [ccW, calls, pureF], fun st a => rfl⟩
  have key : ∀ (l : List CallArgs) (st : Unit × Nat),
      calls (runSeq (ccW (pureF f)) st l) = calls st + l.length := by
    intro l
    induction l with
    | nil => intro st; simp [runSeq]
    | cons a rest ih =>
      intro st
      simp only [runSeq]
      rw [ih]
      simp [calls, ccW, pureF]
      omega
  simpa [calls] using key l ((), 0)

/-- C6: when the n_ary wrapper receives fewer positional arguments than the
target's declared arity but at least one, it returns the first argument
unchanged and never invokes the target. -/
theorem n_ary_base (f : PyFunc) (args : List Int)
    (h0 : 0 < args.length) (h1 : args.length < f.arity) :
    n_ary f args = (some args.headI, 0) := by
  cases args with
  | nil => simp at h0
  | cons x xs =>
    simp only [List.length_cons] at h1
    have hlt : ¬ f.arity < xs.length + 1 := by omega
    have hne : ¬ xs.length + 1 = f.arity := by omega
    simp [n_ary, hlt, hne]

/-- C6 witness: spread_f(5) with binary multiplication returns 5 with zero
invocations of the target. -/
theorem n_ary_base_witness :
    0 < ([(5 : Int)] : List Int).length
    ∧ ([(5 : Int)] : List Int).length < (mkBin pyMul).arity
    ∧ n_ary (mkBin pyMul) [(5 : Int)] = (some ([(5 : Int)] : List Int).headI, 0) :=
  ⟨by decide, by decide, n_ary_base (mkBin pyMul) [(5 : Int)] (by decide) (by decide)⟩

/-- C7: every wrapper in the toolkit exposes its target's name and doc,
and stacking all four wrappers still exposes the innermost function's name
and doc at the outermost layer. -/
theorem wrappers_preserve_identity (m : Meta) :
    (countcallsMeta m).name = m.name ∧ (countcallsMeta m).doc = m.doc
    ∧ (memoMeta m).name = m.name ∧ (memoMeta m).doc = m.doc
    ∧ (n_aryMeta m).name = m.name ∧ (n_aryMeta m).doc = m.doc
    ∧ (traceMeta m).name = m.name ∧ (traceMeta m).doc = m.doc
    ∧ (countcallsMeta (memoMeta (n_aryMeta (traceMeta m)))).name = m.name
    ∧ (countcallsMeta (memoMeta (n_aryMeta (traceMeta m)))).doc = m.doc := by
  simp [countcallsMeta, memoMeta, n_aryMeta, traceMeta, update_wrapper]

/-- C9: the source's disable declares zero parameters, so using it as a
decorator — which passes it the function being decorated as one positional
argument — raises a TypeError instead of yielding a callable behaving as
the original function, contradicting its own docstring (memo = disable). -/
theorem disable_not_a_decorator :
    disable [PyVal.pyfunc "fib" (some "Some doc")]
      = Except.error "TypeError: disable() takes 0 positional arguments" := rfl

/-- C10: calling the n_ary wrapper with zero positional arguments when the
target declares at least one parameter takes the N < P branch, whose
args[0] on the empty tuple raises an index error (no value returned) with
the target never invoked. -/
theorem n_ary_empty (f : PyFunc) (h : 0 < f.arity) :
    n_ary f [] = (none, 0) := by
  have hne : ¬ (0 : Nat) = f.arity := by omega
  simp [n_ary, hne]

/-- C10 witness: the binary multiplication target has positive arity and
the wrapper applied to no arguments returns no value with zero
invocations. -/
theorem n_ary_empty_witness :
    0 < (mkBin pyMul).arity ∧ n_ary (mkBin pyMul) [] = (none, 0) :=
  ⟨by decide, n_ary_empty (mkBin pyMul) (by decide)⟩

/-- A missed lookup means no stored record has the call's key. -/
theorem memo_lookup_none_keys {cache : List Record} {a : CallArgs}
    (h : memoLookup cache a = none) : ∀ r ∈ cache, r.1 ≠ a := by
  intro r hr he
  have hf : cache.find? (fun v => decide (v.1 = a)) = none := by
    simpa [memoLookup] using h
  have := List.find?_eq_none.mp hf r hr
  simp [he] at this

/-- One memo step preserves distinctness of cache keys: a hit leaves the
cache unchanged, and a miss appends a record whose key no stored record
has. -/
theorem memoW_pairwise_step {σ : Type} (g : SFun σ) (st : σ × List Record)
    (a : CallArgs) (h : st.2.Pairwise (fun r r2 => r.1 ≠ r2.1)) :
    ((memoW g st a).2).2.Pairwise (fun r r2 => r.1 ≠ r2.1) := by
  unfold memoW
  cases hl : memoLookup st.2 a with
  | some r => simpa using h
  | none =>
    simp only []
    rw [List.pairwise_append]
    refine ⟨h, List.pairwise_singleton _ _, ?_⟩
    intro x hx y hy
    simp only [List.mem_singleton] at hy
    subst hy
    exact memo_lookup_none_keys hl x hx

/-- C8: after every sequence of calls through the memo wrapper starting
from the fresh empty cache, no two stored records share the same
(positional, keyword) argument key: lookup is a first-match linear scan
and a record is appended only when the scan found no match. -/
theorem memo_cache_distinct {σ : Type} (g : SFun σ) (s0 : σ)
    (l : List CallArgs) :
    ((runSeq (memoW g) (s0, []) l).2).Pairwise (fun r r2 => r.1 ≠ r2.1) := by
  suffices h : ∀ (l : List CallArgs) (st : σ × List Record),
      st.2.Pairwise (fun r r2 => r.1 ≠ r2.1) →
      ((runSeq (memoW g) st l).2).Pairwise (fun r r2 => r.1 ≠ r2.1) by
    exact h l (s0, []) (by simp)
  intro l
  induction l with
  | nil => intro st h; simpa [runSeq] using h
  | cons a rest ih =>
    intro st h
    simp only [runSeq]
    exact ih _ (memoW_pairwise_step g st a h)

/-- The countcalls layer adds one to its count on every call that reaches
it, whatever the inner target does. -/
theorem runSeq_ccW_count {σ : Type} (g : SFun σ) (l : List CallArgs) :
    ∀ st : σ × Nat, (runSeq (ccW g) st l).2 = st.2 + l.length := by
  induction l with
  | nil => intro st; simp [runSeq]
  | cons a rest ih =>
    intro st
    simp only [runSeq]
    rw [ih]
    simp [ccW]
    omega

/-- Identical repeated calls after a cache hit leave the whole wrapper
state unchanged. -/
theorem runSeq_memo_hit {σ : Type} (g : SFun σ) (a : CallArgs) (r : Int)
    (st : σ × List Record) (h : memoLookup st.2 a = some r) :
    ∀ m : Nat, runSeq (memoW g) st (List.replicate m a) = st := by
  intro m
  induction m with
  | zero => simp [runSeq]
  | succ k ih =>
    rw [List.replicate_succ]
    simp only [runSeq]
    rw [show (memoW g st a).2 = st from by simp [memoW, h]]
    exact ih

/-- C4: on a sequence of n identical calls, countcalls(memo(f)) counts
every call (final count n) while memo(countcalls(f)) counts only cache
misses (final count min n 1: one miss, then hits); for n at least 2 the
two totals differ. -/
theorem composition_order (f : CallArgs → Int) (a : CallArgs) (n : Nat) :
    outerCount f a n = n
    ∧ innerCount f a n = min n 1
    ∧ (2 ≤ n → outerCount f a n ≠ innerCount f a n) := by
  have houter : outerCount f a n = n := by
    unfold outerCount outerWrap
    rw [runSeq_ccW_count]
    simp
  have hinner : innerCount f a n = min n 1 := by
    cases n with
    | zero => simp [innerCount, runSeq]
    | succ m =>
      unfold innerCount innerWrap
      rw [List.replicate_succ]
      simp only [runSeq]
      have hstep : (memoW (ccW (pureF f)) (((), 0), []) a).2
          = (((), 1), [(a, f a)]) := by
        simp [memoW, memoLookup, ccW, pureF, List.find?]
      rw [hstep]
      have hhit : memoLookup [(a, f a)] a = some (f a) := by
        simp [memoLookup, List.find?]
      rw [runSeq_memo_hit (ccW (pureF f)) a (f a) _ hhit m]
      simp
  refine ⟨houter, hinner, fun h2 => ?_⟩
  rw [houter, hinner]
  omega

/-- C4 witness: for two identical calls, the outer counter reports 2, the
inner counter reports 1, and they differ. -/
theorem composition_order_witness :
    outerCount constZero sampleArgs 2 = 2
    ∧ innerCount constZero sampleArgs 2 = min 2 1
    ∧ outerCount constZero sampleArgs 2 ≠ innerCount constZero sampleArgs 2 :=
  ⟨(composition_order constZero sampleArgs 2).1,
   (composition_order constZero sampleArgs 2).2.1,
   (composition_order constZero sampleArgs 2).2.2 (by decide)⟩

/-- Unfolding the fold target on a cons whose tail is nonempty. -/
theorem rightFold1_cons (g : Int → Int → Int) (a : Int) (l : List Int)
    (h : l ≠ []) : rightFold1 g (a :: l) = g a (rightFold1 g l) := by
  cases l with
  | nil => exact absurd rfl h
  | cons b rest => rfl

/-- The fold target over a list ending in its two seed elements is a
`foldr` of the leading elements into the seed application. -/
theorem rightFold1_append (g : Int → Int → Int) (x y : Int) :
    ∀ l : List Int, rightFold1 g (l ++ [x, y]) = l.foldr g (g x y) := by
  intro l
  induction l with
  | nil => rfl
  | cons a l ih =>
    rw [List.cons_append, rightFold1_cons g a (l ++ [x, y]) (by simp), ih]
    rfl

/-- The reduction loop of n_ary over a binary target computes a `foldr` of
the first k arguments into the seed, entering the target once per
iteration. -/
theorem n_aryLoop_mkBin (g : Int → Int → Int) (args : List Int) :
    ∀ (k : Nat) (r : Int), k ≤ args.length →
      n_aryLoop (mkBin g) args k r = (some ((args.take k).foldr g r), k) := by
  intro k
  induction k with
  | zero => intro r _; simp [n_aryLoop]
  | succ k ih =>
    intro r h
    have hk : k < args.length := by omega
    have hgetD : args.getD k 0 = args[k] := by
      rw [List.getD_eq_getElem?_getD, List.getElem?_eq_getElem hk]
      rfl
    have hc : callC (mkBin g) [args.getD k 0, r]
        = (some (g (args.getD k 0) r), 1) := by
      simp [callC, mkBin]
    have htake : (args.take (k + 1)).foldr g r
        = (args.take k).foldr g (g (args.getD k 0) r) := by
      have ht : args.take (k + 1) = args.take k ++ [args[k]] := by
        rw [List.take_succ, List.getElem?_eq_getElem hk]
        rfl
      rw [ht, List.foldr_append, hgetD]
      rfl
    simp only [n_aryLoop, hc]
    rw [ih (g (args.getD k 0) r) (by omega), htake]
    simp [Nat.add_comm]

/-- C2: for a binary target and more than two positional arguments, the
n_ary wrapper returns the right fold: the target applied to the last two
arguments, with each remaining leading argument folded in reverse order
into the intermediate result. -/
theorem n_ary_fold (g : Int → Int → Int) (args : List Int)
    (h : 2 < args.length) :
    (n_ary (mkBin g) args).1 = some (rightFold1 g args) := by
  have hlen2 : (args.drop (args.length - 2)).length = 2 := by
    rw [List.length_drop]; omega
  obtain ⟨x, y, hxy⟩ := List.length_eq_two.mp hlen2
  have hgt : (mkBin g).arity < args.length := h
  have hcall : callC (mkBin g) (args.drop (args.length - (mkBin g).arity))
      = (some (g x y), 1) := by
    show callC (mkBin g) (args.drop (args.length - 2)) = _
    rw [hxy]
    simp [callC, mkBin]
  have hsplit : args = args.take (args.length - 2) ++ [x, y] := by
    conv_lhs => rw [← List.take_append_drop (args.length - 2) args]
    rw [hxy]
  unfold n_ary
  rw [if_pos hgt, hcall]
  simp only []
  rw [show (mkBin g).arity = 2 from rfl]
  rw [n_aryLoop_mkBin g args (args.length - 2) (g x y) (by omega)]
  simp only []
  congr 1
  calc (args.take (args.length - 2)).foldr g (g x y)
      = rightFold1 g (args.take (args.length - 2) ++ [x, y]) :=
        (rightFold1_append g x y _).symm
    _ = rightFold1 g args := by rw [← hsplit]

/-- C2 witness: for multiplication, spread_f(5, 4, 3, 2) returns the right
fold 5 * (4 * (3 * 2)) = 120. -/
theorem n_ary_fold_witness :
    2 < ([5, 4, 3, 2] : List Int).length
    ∧ (n_ary (mkBin pyMul) [5, 4, 3, 2]).1 = some (rightFold1 pyMul [5, 4, 3, 2])
    ∧ rightFold1 pyMul [5, 4, 3, 2] = 120 :=
  ⟨by decide, n_ary_fold pyMul [5, 4, 3, 2] (by decide), by decide⟩

end Deco
